import Mathlib

/-!
Verification of the admin subsystem of the Panchayath Management System:
the audit trigger, the row-level-security policies, the permission
replace flow, the settings store and the audit-log viewer, shallowly
embedded from the SQL migration and the React components.
-/

namespace AdminSpec

/-- Identifier of a row of the admin_users table. -/
abbrev UserId := Nat

/-- Identifier of a row of the admin_permissions table. -/
abbrev PermId := Nat

/-- Roles allowed by the CHECK constraint on admin_users.role. -/
inductive Role where
  | super_admin
  | admin
  | local_admin
deriving DecidableEq

/-- Row of the admin_users table (the columns the policies and the
components read). -/
structure AdminUser where
  id : UserId
  username : String
  email : Option String
  password_hash : String
  role : Role
  is_active : Bool
deriving DecidableEq

/-- Row of one of the audited tables, seen by the trigger: a primary key
rendered as text plus the remaining columns, kept opaque. -/
structure TrackedRow where
  id : String
  data : String
deriving DecidableEq

/-- Trigger operation, the value of TG_OP inside log_admin_action. -/
inductive TgOp where
  | INSERT
  | UPDATE
  | DELETE
deriving DecidableEq

/-- Row of the audit_logs table, as inserted by log_admin_action. -/
structure AuditEntry where
  user_id : Option UserId
  action : TgOp
  table_name : String
  record_id : String
  old_values : Option TrackedRow
  new_values : Option TrackedRow
deriving DecidableEq

/-- Embedding of the trigger function log_admin_action from the
migration: it inserts one audit_logs row whose record_id is
COALESCE(NEW.id, OLD.id), whose old_values is to_jsonb(OLD) when TG_OP
is DELETE and NULL otherwise, and whose new_values is to_jsonb(NEW) when
TG_OP is INSERT or UPDATE and NULL otherwise. -/
def log_admin_action (uid : Option UserId) (op : TgOp) (tbl : String)
    (oldRow newRow : Option TrackedRow) : AuditEntry :=
  { user_id := uid
    action := op
    table_name := tbl
    record_id := ((newRow.map (·.id)).orElse (fun _ => oldRow.map (·.id))).getD ""
    old_values := if op = TgOp.DELETE then oldRow else none
    new_values := if op = TgOp.INSERT ∨ op = TgOp.UPDATE then newRow else none }

/-- Value stored in the password_hash column by handleSubmit in
AdminUserManagement.tsx, for both the create and the update branch: the
literal prefix of a bcrypt hash concatenated with the plaintext
password. -/
def storedPasswordHash (password : String) : String :=
  "$2b$10$" ++ password

/-- Tables to which the migration attaches the audit trigger (AFTER
INSERT OR UPDATE OR DELETE ... EXECUTE FUNCTION log_admin_action). -/
def trackedTables : List String :=
  ["admin_users", "panchayaths", "agents", "management_teams"]

/-- One row mutation issued against a table. -/
inductive Mutation where
  | ins (tbl : String) (r : TrackedRow)
  | upd (tbl : String) (rid : String) (newData : String)
  | del (tbl : String) (rid : String)

/-- Table a mutation is issued against. -/
def Mutation.tbl : Mutation → String
  | .ins t _ => t
  | .upd t _ _ => t
  | .del t _ => t

/-- Rows of the store, each tagged with the table it belongs to. -/
abbrev Rows := List (String × TrackedRow)

/-- Row-level effect of one SQL statement: the rows after the statement
plus the per-row trigger events (TG_OP, OLD, NEW) it generates; none
models a statement failure (primary-key violation on insert). An update
or delete matching no row succeeds, affects zero rows and fires the
FOR EACH ROW trigger zero times. -/
def rowOp (rows : Rows) : Mutation →
    Option (Rows × List (TgOp × Option TrackedRow × Option TrackedRow))
  | .ins t r =>
      if rows.any (fun p => p.1 == t && p.2.id == r.id) then none
      else some (rows ++ [(t, r)], [(TgOp.INSERT, none, some r)])
  | .upd t rid d =>
      match rows.find? (fun p => p.1 == t && p.2.id == rid) with
      | none => some (rows, [])
      | some p =>
          some (rows.map (fun q => if q.1 == t && q.2.id == rid then (t, ⟨rid, d⟩) else q),
                [(TgOp.UPDATE, some p.2, some ⟨rid, d⟩)])
  | .del t rid =>
      match rows.find? (fun p => p.1 == t && p.2.id == rid) with
      | none => some (rows, [])
      | some p =>
          some (rows.filter (fun q => !(q.1 == t && q.2.id == rid)),
                [(TgOp.DELETE, some p.2, none)])

/-- State of the store: the audited tables plus the audit_logs table
(newest entry first). -/
structure DBState where
  rows : Rows
  audit : List AuditEntry
deriving DecidableEq

/-- Audit entries the trigger inserts for a given mutation of a given
state: one log_admin_action row per affected row when the table carries
the audit trigger, none otherwise. -/
def txEntries (db : DBState) (uid : Option UserId) (m : Mutation) : List AuditEntry :=
  match rowOp db.rows m with
  | none => []
  | some pr =>
      if m.tbl ∈ trackedTables then
        pr.2.map (fun e => log_admin_action uid e.1 m.tbl e.2.1 e.2.2)
      else []

/-- Transactional execution of one mutation together with its audit
trigger, following the semantics of an AFTER ROW trigger: the trigger
runs inside the same transaction, so the statement and the audit insert
commit together or not at all. The auditOk flag models whether the
insert into audit_logs succeeds; when it fails while entries are due,
the whole transaction aborts and no state change is visible. -/
def applyTx (db : DBState) (uid : Option UserId) (m : Mutation)
    (auditOk : Bool) : Option DBState :=
  match rowOp db.rows m with
  | none => none
  | some pr =>
      if auditOk = false ∧ txEntries db uid m ≠ [] then none
      else some ⟨pr.1, txEntries db uid m ++ db.audit⟩

/-- States reachable from the empty store through committed
transactions, indexed by the total number of audit entries those
transactions were due to write. -/
inductive Reach : DBState → Nat → Prop where
  | init : Reach ⟨[], []⟩ 0
  | step {db : DBState} {n : Nat} {uid : Option UserId} {m : Mutation}
      {auditOk : Bool} {db2 : DBState} :
      Reach db n → applyTx db uid m auditOk = some db2 →
      Reach db2 (n + (txEntries db uid m).length)

/-- Row of the admin_user_permissions table, reduced to the columns the
component writes; the UNIQUE (user_id, permission_id) constraint makes
this pair the identity of a row. -/
structure Grant where
  user_id : UserId
  permission_id : PermId
deriving DecidableEq

/-- Delete step of saveUserPermissions: DELETE FROM
admin_user_permissions WHERE user_id = u, issued as its own request
whose result the component does not check. -/
def deleteUserGrants (g : List Grant) (u : UserId) : List Grant :=
  g.filter (fun gr => gr.user_id != u)

/-- Insert step of saveUserPermissions: one row per selected permission
in a single statement; the UNIQUE (user_id, permission_id) constraint
rejects the whole statement when an inserted pair duplicates an existing
row or another inserted row. -/
def insertGrants (g : List Grant) (new : List Grant) : Option (List Grant) :=
  if new.Nodup ∧ ∀ n ∈ new, n ∉ g then some (g ++ new) else none

/-- Observable outcome of one run of saveUserPermissions: the grant
rows committed once the run ends, and whether the run reached its
success path. -/
structure SaveOutcome where
  grants : List Grant
  ok : Bool
deriving DecidableEq

/-- Embedding of saveUserPermissions in AdminUserManagement.tsx: the
delete request, then, when the selected set is nonempty, the insert
request. The two are separate requests with no surrounding transaction,
so a delete that committed stays committed whatever happens to the
insert; insertOk models whether the insert request reaches the
database at all (a crash or network failure between the two requests). -/
def saveUserPermissions (g : List Grant) (u : UserId) (ps : List PermId)
    (insertOk : Bool) : SaveOutcome :=
  let afterDelete := deleteUserGrants g u
  if ps.isEmpty then ⟨afterDelete, true⟩
  else if insertOk then
    match insertGrants afterDelete (ps.map (fun p => ⟨u, p⟩)) with
    | some g2 => ⟨g2, true⟩
    | none => ⟨afterDelete, false⟩
  else ⟨afterDelete, false⟩

/-- Commands a policy can cover; FOR ALL covers the four of them. -/
inductive Cmd where
  | select
  | insert
  | update
  | delete
deriving DecidableEq

/-- List of commands covered by a FOR ALL policy. -/
def allCmds : List Cmd := [Cmd.select, Cmd.insert, Cmd.update, Cmd.delete]

/-- USING check shared by the policies that require an active admin:
EXISTS (SELECT 1 FROM admin_users au WHERE au.id = auth.uid() AND
au.is_active = true); an unauthenticated caller has NULL auth.uid() and
matches no row. -/
def activeAdminCheck (users : List AdminUser) (uid : Option UserId) : Bool :=
  match uid with
  | none => false
  | some u => users.any (fun au => decide (au.id = u) && au.is_active)

/-- USING check of the policies that require an active super admin: the
same EXISTS with the additional conjunct au.role = super_admin. -/
def activeSuperAdminCheck (users : List AdminUser) (uid : Option UserId) : Bool :=
  match uid with
  | none => false
  | some u =>
      users.any (fun au =>
        decide (au.id = u) && decide (au.role = Role.super_admin) && au.is_active)

/-- Row-level-security policy: the table it governs, the commands it
covers, and its USING check over the admin_users table and the acting
identity. -/
structure Policy where
  table : String
  cmds : List Cmd
  usingCheck : List AdminUser → Option UserId → Bool

/-- Policies created by the migration, in order. -/
def policies : List Policy :=
  [ ⟨"admin_users", allCmds, activeSuperAdminCheck⟩,
    ⟨"admin_users", [Cmd.select], activeAdminCheck⟩,
    ⟨"admin_permissions", [Cmd.select], activeAdminCheck⟩,
    ⟨"admin_user_permissions", allCmds, activeSuperAdminCheck⟩,
    ⟨"system_settings", allCmds, activeAdminCheck⟩,
    ⟨"audit_logs", [Cmd.select], activeAdminCheck⟩ ]

/-- Permissive row-level security with RLS enabled on every table of the
migration: a command is allowed exactly when some policy for that table
and command has a passing USING check; with no passing policy the
command is denied. -/
def rlsAllowed (users : List AdminUser) (uid : Option UserId)
    (tbl : String) (cmd : Cmd) : Bool :=
  policies.any (fun p =>
    decide (p.table = tbl) && decide (cmd ∈ p.cmds) && p.usingCheck users uid)

/-- Modelled from the spec: the policies protecting the domain tables
(panchayaths, agents, management_teams) are not among the sources, only
their audit triggers are; section 4.3 requires the evaluator to deny by
default when the acting identity is missing, inactive, or
unauthenticated, and otherwise to decide from role or grants, kept
abstract here as the perm condition on the matched row. -/
def canAct (users : List AdminUser) (uid : Option UserId)
    (perm : AdminUser → Bool) : Bool :=
  match uid with
  | none => false
  | some u => users.any (fun au => decide (au.id = u) && au.is_active && perm au)

/-- Condition describing an acting identity that is unauthenticated
(none), missing from admin_users, or inactive in every matching row. -/
def inactiveActor (users : List AdminUser) (uid : Option UserId) : Bool :=
  match uid with
  | none => true
  | some u => users.all (fun au => !(decide (au.id = u) && au.is_active))

/-- Row of the system_settings table, reduced to the columns the
component touches. -/
structure Setting where
  setting_key : String
  setting_value : String
  updated_by : Option UserId
  updated_at : Nat
deriving DecidableEq

/-- Embedding of the upsert issued by updateSetting in
SystemSettings.tsx: the payload carries setting_key, setting_value and
updated_at only; ON CONFLICT (setting_key) the existing row gets exactly
those columns overwritten, otherwise a fresh row is appended with its
remaining columns at their defaults, updated_by NULL among them. -/
def upsertSetting (db : List Setting) (k v : String) (t : Nat) : List Setting :=
  if db.any (fun s => s.setting_key == k) then
    db.map (fun s =>
      if s.setting_key == k then { s with setting_value := v, updated_at := t } else s)
  else db ++ [⟨k, v, none, t⟩]

/-- Row holding a given key, as the store returns it. -/
def findSetting (db : List Setting) (k : String) : Option Setting :=
  db.find? (fun s => s.setting_key == k)

/-- Read of the value of one setting by key. -/
def getSetting (db : List Setting) (k : String) : Option String :=
  (findSetting db k).map (·.setting_value)

/-- Embedding of handleSaveAll in SystemSettings.tsx: every entry of the
settings map is sent in one bulk upsert request, which the store
executes as a single statement; ok models whether that statement
succeeds. A single statement commits as a whole or not at all, so on
failure the store is unchanged. -/
def handleSaveAll (db : List Setting) (entries : List (String × String))
    (t : Nat) (ok : Bool) : List Setting :=
  if ok then entries.foldl (fun acc e => upsertSetting acc e.1 e.2 t) db else db

/-- Audit row as the viewer in part_000 reads it: the columns the
filters and the export touch, with the joined admin_users username. -/
structure LogView where
  action : String
  table_name : String
  record_id : String
  username : Option String
  created_at : Nat
  ip_address : Option String
deriving DecidableEq

/-- Filter state of the viewer; empty strings and absent dates mean the
corresponding filter is off, as in the component. -/
structure LogFilters where
  action : String
  table : String
  user : String
  dateFrom : Option Nat
  dateTo : Option Nat
  search : String
deriving DecidableEq

/-- Substring test on character lists, the behaviour of
String.prototype.includes: an empty needle always matches. -/
def isSubChars (sub : List Char) : List Char → Bool
  | [] => sub.isEmpty
  | c :: rest => sub.isPrefixOf (c :: rest) || isSubChars sub rest

/-- Substring test on strings: hay includes sub. -/
def strIncludes (hay sub : String) : Bool :=
  isSubChars sub.toList hay.toList

/-- Username condition of the user filter and of the username clause of
the free-text filter: a row with no joined username never matches. -/
def userMatches (log : LogView) (u : String) : Bool :=
  match log.username with
  | some n => strIncludes n.toLower u.toLower
  | none => false

/-- Free-text condition of the search filter: case-insensitive substring
of the action, table name, record id, or username. -/
def searchMatches (log : LogView) (q : String) : Bool :=
  strIncludes log.action.toLower q.toLower
    || strIncludes log.table_name.toLower q.toLower
    || strIncludes log.record_id.toLower q.toLower
    || userMatches log q.toLower

/-- Conditional filter stage: applied only when the filter is set. -/
def condFilter (apply : Bool) (p : LogView → Bool) (l : List LogView) : List LogView :=
  if apply then l.filter p else l

/-- Embedding of applyFilters in the audit-log viewer: the six filter
stages in the order of the component, each applied only when set. -/
def applyFilters (logs : List LogView) (f : LogFilters) : List LogView :=
  let l1 := condFilter (f.action != "") (fun log => log.action == f.action) logs
  let l2 := condFilter (f.table != "") (fun log => log.table_name == f.table) l1
  let l3 := condFilter (f.user != "") (fun log => userMatches log f.user) l2
  let l4 :=
    match f.dateFrom with
    | some a => l3.filter (fun log => decide (a ≤ log.created_at))
    | none => l3
  let l5 :=
    match f.dateTo with
    | some b => l4.filter (fun log => decide (log.created_at ≤ b))
    | none => l4
  condFilter (f.search != "") (fun log => searchMatches log f.search) l5

/-- Embedding of fetchAuditLogs: the query orders by created_at
descending and limits the result to 1000 rows, so over a store already
in newest-first order it returns the first 1000 rows. -/
def fetchAuditLogs (stored : List LogView) : List LogView :=
  stored.take 1000

/-- Header line of the CSV export. -/
def csvHeader : String :=
  "Timestamp,User,Action,Table,Record ID,IP Address"

/-- One CSV line of exportLogs: timestamp, username with the Unknown
fallback, action, table, record id, and the ip with empty fallback,
joined by commas; the timestamp rendering is kept abstract as the
numeric value printed. -/
def csvRow (log : LogView) : String :=
  String.intercalate ","
    [toString log.created_at, log.username.getD "Unknown", log.action,
      log.table_name, log.record_id, log.ip_address.getD ""]

/-- Embedding of exportLogs: the header line followed by one line per
currently filtered row. -/
def exportLogs (filtered : List LogView) : List String :=
  csvHeader :: filtered.map csvRow

/-- Sample audit rows for concrete evaluations. -/
def sampleLog1 : LogView :=
  ⟨"UPDATE", "admin_users", "r1", some "admin1", 10, none⟩

/-- Second sample audit row, older than the first. -/
def sampleLog2 : LogView :=
  ⟨"INSERT", "agents", "r2", none, 5, none⟩

/-- Filter state with every filter off. -/
def emptyFilters : LogFilters :=
  ⟨"", "", "", none, none, ""⟩

/-- Helper: a committed transaction extends the audit log by exactly the
entries due for it and performs the row change of the statement. -/
theorem applyTx_some_eq (db : DBState) (uid : Option UserId) (m : Mutation)
    (auditOk : Bool) (db2 : DBState) (h : applyTx db uid m auditOk = some db2) :
    db2.audit = txEntries db uid m ++ db.audit
      ∧ ∃ pr, rowOp db.rows m = some pr ∧ db2.rows = pr.1 := by
  unfold applyTx at h
  cases hr : rowOp db.rows m with
  | none => rw [hr] at h; simp at h
  | some pr =>
      rw [hr] at h
      simp only at h
      split at h
      · simp at h
      · cases h
        exact ⟨rfl, pr, rfl, rfl⟩

/-- Helper: a single SQL statement affects at most one row here, so the
trigger generates at most one event. -/
theorem rowOp_events_le_one (rows : Rows) (m : Mutation)
    (pr : Rows × List (TgOp × Option TrackedRow × Option TrackedRow))
    (h : rowOp rows m = some pr) : pr.2.length ≤ 1 := by
  cases m with
  | ins t r =>
      simp only [rowOp] at h
      split at h
      · simp at h
      · cases h; simp
  | upd t rid d =>
      simp only [rowOp] at h
      split at h
      · cases h; simp
      · cases h; simp
  | del t rid =>
      simp only [rowOp] at h
      split at h
      · cases h; simp
      · cases h; simp

/-- C2. Every mutation of a tracked resource produces exactly one audit
record in the same atomic unit: a committed transaction extends the
audit log by precisely the entries due for the statement (one per
affected tracked row); a failed statement commits nothing and writes no
audit record; a failed audit insert aborts the whole transaction; and in
every reachable state the length of the audit log equals the number of
audit entries due across the committed history, so neither an orphaned
audit record nor an unaudited tracked mutation is reachable. -/
theorem audit_same_atomic_unit :
    (∀ db uid m auditOk db2, applyTx db uid m auditOk = some db2 →
        db2.audit = txEntries db uid m ++ db.audit)
    ∧ (∀ db uid m auditOk, rowOp db.rows m = none →
        applyTx db uid m auditOk = none)
    ∧ (∀ db uid m, txEntries db uid m ≠ [] → applyTx db uid m false = none)
    ∧ (∀ db uid m pr, rowOp db.rows m = some pr → m.tbl ∈ trackedTables →
        (txEntries db uid m).length = pr.2.length ∧ pr.2.length ≤ 1)
    ∧ (∀ db n, Reach db n → db.audit.length = n) := by
  refine ⟨?_, ?_, ?_, ?_, ?_⟩
  · exact fun db uid m auditOk db2 h => (applyTx_some_eq db uid m auditOk db2 h).1
  · intro db uid m auditOk h
    unfold applyTx
    rw [h]
  · intro db uid m hne
    unfold applyTx
    cases hr : rowOp db.rows m with
    | none => rfl
    | some pr => simp [hne]
  · intro db uid m pr h ht
    refine ⟨?_, rowOp_events_le_one db.rows m pr h⟩
    unfold txEntries
    rw [h]
    simp [ht]
  · intro db n h
    induction h with
    | init => rfl
    | step hR hTx ih =>
        rename_i db1 n1 uid m auditOk db2
        have := (applyTx_some_eq db1 uid m auditOk db2 hTx).1
        rw [this, List.length_append, ih]
        omega

/-- Witness for C2: inserting the first admin user while the audit
insert fails aborts the transaction. -/
theorem audit_same_atomic_unit_witness :
    applyTx ⟨[], []⟩ (some 1) (Mutation.ins "admin_users" ⟨"u1", "x"⟩) false = none :=
  audit_same_atomic_unit.2.2.1 ⟨[], []⟩ (some 1)
    (Mutation.ins "admin_users" ⟨"u1", "x"⟩) (by decide)

/-- C1. The claim states that for an update the audit record carries
both snapshots; on the code, the old_values column of the record the
trigger produces for an UPDATE is NULL, not the prior state: concrete
update of a tracked row refutes the claim. -/
theorem update_audit_lacks_before :
    (log_admin_action (some 1) TgOp.UPDATE "admin_users"
        (some ⟨"r1", "old state"⟩) (some ⟨"r1", "new state"⟩)).old_values
      ≠ some ⟨"r1", "old state"⟩ := by
  decide

/-- C1 (amended). For every update to a tracked resource, the audit
record produced by the trigger contains after equal to the new row
state, while the before snapshot is absent: log_admin_action writes
old_values only for DELETE. -/
theorem update_audit_after_only (uid : Option UserId) (tbl : String)
    (oldRow newRow : TrackedRow) :
    (log_admin_action uid TgOp.UPDATE tbl (some oldRow) (some newRow)).new_values
        = some newRow
      ∧ (log_admin_action uid TgOp.UPDATE tbl (some oldRow) (some newRow)).old_values
        = none := by
  constructor
  · simp [log_admin_action]
  · simp [log_admin_action]

/-- C5. The claim states the stored credential hash never reveals the
supplied password; handleSubmit stores the bcrypt prefix concatenated
with the plaintext, so the plaintext is a substring of the stored
value. Evaluated at the concrete password of the failing input. -/
theorem stored_hash_contains_plaintext :
    storedPasswordHash "password123" = "$2b$10$password123"
      ∧ ("password123".toList <:+: (storedPasswordHash "password123").toList) := by
  refine ⟨rfl, "$2b$10$".toList, [], ?_⟩
  decide

/-- C3. The claim states the permission replace is observably atomic;
on the code the delete and the insert are separate requests, so the run
in which the insert request fails after the delete committed leaves the
grant table empty for the user: user 1 held capability 10, intended to
keep capability 20, and ends with neither the full old set nor the full
new set, and zero rows for capability 20. -/
theorem replace_not_atomic :
    (saveUserPermissions [⟨1, 10⟩] 1 [20] false).grants = []
      ∧ (saveUserPermissions [⟨1, 10⟩] 1 [20] false).grants ≠ [⟨1, 10⟩]
      ∧ (saveUserPermissions [⟨1, 10⟩] 1 [20] false).grants ≠ [⟨1, 20⟩]
      ∧ (saveUserPermissions [⟨1, 10⟩] 1 [20] false).grants.count ⟨1, 20⟩ = 0 := by
  decide

/-- C4. Granting a pair the identity already holds through the
permission-save flow is a no-op and not an error: the run reaches its
success path, the UNIQUE constraint is never violated because the delete
precedes the insert, and the grant count of the pair stays exactly 1. -/
theorem grant_idempotent (g : List Grant) (u : UserId) (ps : List PermId)
    (p : PermId) (hnd : ps.Nodup) (hp : p ∈ ps)
    (_hheld : (⟨u, p⟩ : Grant) ∈ g) :
    (saveUserPermissions g u ps true).ok = true
      ∧ (saveUserPermissions g u ps true).grants.count ⟨u, p⟩ = 1 := by
  have hps : ps.isEmpty = false := by
    cases ps with
    | nil => cases hp
    | cons a l => rfl
  have hinj : Function.Injective (fun q : PermId => (⟨u, q⟩ : Grant)) := by
    intro a b hab
    simpa using hab
  have hnodup2 : (ps.map (fun q => (⟨u, q⟩ : Grant))).Nodup := hnd.map hinj
  have hfresh : ∀ n ∈ ps.map (fun q => (⟨u, q⟩ : Grant)),
      n ∉ deleteUserGrants g u := by
    intro n hn hmem
    obtain ⟨q, _, rfl⟩ := List.mem_map.1 hn
    have h2 := (List.mem_filter.1 hmem).2
    simp at h2
  have hins : insertGrants (deleteUserGrants g u) (ps.map (fun q => (⟨u, q⟩ : Grant)))
      = some (deleteUserGrants g u ++ ps.map (fun q => (⟨u, q⟩ : Grant))) := by
    unfold insertGrants
    rw [if_pos ⟨hnodup2, hfresh⟩]
  have hnotmem : (⟨u, p⟩ : Grant) ∉ deleteUserGrants g u := by
    intro hmem
    have h2 := (List.mem_filter.1 hmem).2
    simp at h2
  have hmemnew : (⟨u, p⟩ : Grant) ∈ ps.map (fun q => (⟨u, q⟩ : Grant)) :=
    List.mem_map.2 ⟨p, hp, rfl⟩
  unfold saveUserPermissions
  rw [hps]
  simp only [Bool.false_eq_true, if_false, if_true, hins]
  refine ⟨by trivial, ?_⟩
  rw [List.count_append, List.count_eq_zero.2 hnotmem,
    List.count_eq_one_of_mem hnodup2 hmemnew]

/-- Witness for C4: user 1 already holds capability 10 and re-submits a
set containing it; the save succeeds and the count stays 1. -/
theorem grant_idempotent_witness :
    (saveUserPermissions [⟨1, 10⟩] 1 [10, 20] true).ok = true
      ∧ (saveUserPermissions [⟨1, 10⟩] 1 [10, 20] true).grants.count ⟨1, 10⟩ = 1 :=
  grant_idempotent [⟨1, 10⟩] 1 [10, 20] 10 (by decide) (by decide) (by decide)

/-- C6. An acting identity that is unauthenticated, missing from
admin_users, or inactive fails the USING check of every policy the
migration creates, so permissive deny-by-default row-level security
denies it every command on every policed table; and the spec-modelled
evaluator of the domain tables denies it as well, whatever role-or-grant
condition an equivalent active identity would have satisfied. -/
theorem inactive_identity_denied (users : List AdminUser) (uid : Option UserId)
    (h : inactiveActor users uid = true) :
    (∀ tbl cmd, rlsAllowed users uid tbl cmd = false)
      ∧ (∀ perm, canAct users uid perm = false) := by
  have hrow : ∀ u, uid = some u → ∀ au ∈ users,
      ¬(au.id = u ∧ au.is_active = true) := by
    intro u hu au hau hand
    subst hu
    unfold inactiveActor at h
    have hall := List.all_eq_true.1 h au hau
    simp only [Bool.not_eq_true', Bool.and_eq_false_iff, decide_eq_false_iff_not] at hall
    cases hall with
    | inl h1 => exact h1 hand.1
    | inr h2 => rw [hand.2] at h2; cases h2
  have hA : activeAdminCheck users uid = false := by
    cases hu : uid with
    | none => rfl
    | some u =>
        unfold activeAdminCheck
        rw [List.any_eq_false]
        intro au hau hcontra
        simp only [Bool.and_eq_true, decide_eq_true_eq] at hcontra
        exact hrow u hu au hau ⟨hcontra.1, hcontra.2⟩
  have hS : activeSuperAdminCheck users uid = false := by
    cases hu : uid with
    | none => rfl
    | some u =>
        unfold activeSuperAdminCheck
        rw [List.any_eq_false]
        intro au hau hcontra
        simp only [Bool.and_eq_true, decide_eq_true_eq] at hcontra
        exact hrow u hu au hau ⟨hcontra.1.1, hcontra.2⟩
  constructor
  · intro tbl cmd
    simp [rlsAllowed, policies, hA, hS]
  · intro perm
    cases hu : uid with
    | none => rfl
    | some u =>
        unfold canAct
        rw [List.any_eq_false]
        intro au hau hcontra
        simp only [Bool.and_eq_true, decide_eq_true_eq] at hcontra
        exact hrow u hu au hau ⟨hcontra.1.1, hcontra.1.2⟩

/-- Witness for C6: an inactive admin, present in admin_users, is denied
the update command on admin_users and every spec-modelled domain check. -/
theorem inactive_identity_denied_witness :
    rlsAllowed [⟨1, "admin1", none, "h", Role.super_admin, false⟩] (some 1)
        "admin_users" Cmd.update = false
      ∧ canAct [⟨1, "admin1", none, "h", Role.super_admin, false⟩] (some 1)
        (fun _ => true) = false :=
  ⟨(inactive_identity_denied [⟨1, "admin1", none, "h", Role.super_admin, false⟩]
      (some 1) (by decide)).1 "admin_users" Cmd.update,
   (inactive_identity_denied [⟨1, "admin1", none, "h", Role.super_admin, false⟩]
      (some 1) (by decide)).2 (fun _ => true)⟩

/-- Helper: upserting key k walks past a row holding a different key. -/
theorem upsert_cons_of_ne (s : Setting) (rest : List Setting) (k v : String)
    (t : Nat) (h : (s.setting_key == k) = false) :
    upsertSetting (s :: rest) k v t = s :: upsertSetting rest k v t := by
  unfold upsertSetting
  rw [List.any_cons, h, Bool.false_or]
  cases hr : rest.any (fun s2 => s2.setting_key == k) with
  | true =>
      have h2 : ¬s.setting_key = k := by simpa using h
      simp [hr, h2]
  | false => simp [hr]

/-- Helper: the row the upsert leaves under its own key is the prior row
with value and timestamp overwritten when one existed, and a fresh row
with NULL updated_by otherwise. -/
theorem findSetting_upsert (db : List Setting) (k v : String) (t : Nat) :
    findSetting (upsertSetting db k v t) k =
      some (match findSetting db k with
            | some s => { s with setting_value := v, updated_at := t }
            | none => (⟨k, v, none, t⟩ : Setting)) := by
  induction db with
  | nil => simp [upsertSetting, findSetting]
  | cons s rest ih =>
      by_cases hk : (s.setting_key == k) = true
      · unfold upsertSetting findSetting
        rw [List.any_cons, hk, Bool.true_or]
        simp only [if_true]
        rw [List.map_cons, if_pos hk]
        have hk2 : (({ s with setting_value := v, updated_at := t } : Setting).setting_key == k)
            = true := hk
        rw [List.find?_cons_of_pos (p := fun s2 : Setting => s2.setting_key == k) _ hk2,
          List.find?_cons_of_pos (p := fun s2 : Setting => s2.setting_key == k) _ hk]
      · have hk0 : (s.setting_key == k) = false := by simpa using hk
        rw [upsert_cons_of_ne s rest k v t hk0]
        unfold findSetting at ih ⊢
        rw [List.find?_cons_of_neg (p := fun s2 : Setting => s2.setting_key == k) _ hk,
          List.find?_cons_of_neg (p := fun s2 : Setting => s2.setting_key == k) _ hk]
        exact ih

/-- Helper: the row-updating map of the upsert never touches the key
column, so a lookup under a different key sees through it. -/
theorem find?_key_map (rest : List Setting) (k v : String) (t : Nat)
    (k2 : String) (h : k2 ≠ k) :
    List.find? (fun s => s.setting_key == k2)
        (rest.map (fun s =>
          if s.setting_key == k then { s with setting_value := v, updated_at := t } else s))
      = List.find? (fun s => s.setting_key == k2) rest := by
  induction rest with
  | nil => rfl
  | cons s rest ih =>
      rw [List.map_cons]
      by_cases hsk : (s.setting_key == k) = true
      · have hkey : s.setting_key = k := by simpa using hsk
        have hp : (({ s with setting_value := v, updated_at := t } : Setting).setting_key == k2)
            = false := by
          simp only [hkey]
          exact beq_eq_false_iff_ne.mpr (fun e => h e.symm)
        have hp2 : (s.setting_key == k2) = false := by
          rw [hkey]
          exact beq_eq_false_iff_ne.mpr (fun e => h e.symm)
        rw [if_pos hsk,
          List.find?_cons_of_neg (p := fun s2 : Setting => s2.setting_key == k2) _ (by simp [hp]),
          List.find?_cons_of_neg (p := fun s2 : Setting => s2.setting_key == k2) _ (by simp [hp2])]
        exact ih
      · rw [if_neg hsk]
        by_cases hp : (s.setting_key == k2) = true
        · rw [List.find?_cons_of_pos (p := fun s2 : Setting => s2.setting_key == k2) _ hp,
            List.find?_cons_of_pos (p := fun s2 : Setting => s2.setting_key == k2) _ hp]
        · rw [List.find?_cons_of_neg (p := fun s2 : Setting => s2.setting_key == k2) _ hp,
            List.find?_cons_of_neg (p := fun s2 : Setting => s2.setting_key == k2) _ hp]
          exact ih

/-- Helper: an upsert of one key leaves the row of every other key
untouched. -/
theorem findSetting_upsert_ne (db : List Setting) (k v : String) (t : Nat)
    (k2 : String) (h : k2 ≠ k) :
    findSetting (upsertSetting db k v t) k2 = findSetting db k2 := by
  unfold upsertSetting findSetting
  cases ha : db.any (fun s => s.setting_key == k) with
  | true =>
      simp only [if_true]
      exact find?_key_map db k v t k2 h
  | false =>
      simp only [Bool.false_eq_true, if_false]
      rw [List.find?_append]
      have hnew : List.find? (fun s => s.setting_key == k2) [(⟨k, v, none, t⟩ : Setting)]
          = none := by
        simp [beq_eq_false_iff_ne.mpr (fun e => h e.symm)]
      rw [hnew]
      cases List.find? (fun s => s.setting_key == k2) db <;> rfl

/-- C7 counterexample. The claim states set(key, value, updatedBy)
overwrites value, updater and timestamp; the upsert payload of
updateSetting carries no updated_by, so on the concrete store where key
site was last written by identity 7, an update of the value leaves
updated_by at 7 — the updater column is not overwritten with any acting
identity. -/
theorem set_keeps_stale_updater :
    findSetting (upsertSetting [⟨"site", "old", some 7, 0⟩] "site" "new" 5) "site"
      = some ⟨"site", "new", some 7, 5⟩ := by
  decide

/-- C7 (amended). updateSetting(key, value) upserts: when the key is
absent a fresh row is created with updated_by NULL, otherwise the
existing row keeps its updated_by and gets value and timestamp
overwritten; after the call the read of the key returns the new value. -/
theorem updateSetting_upserts (db : List Setting) (k v : String) (t : Nat) :
    getSetting (upsertSetting db k v t) k = some v
      ∧ (∀ s, findSetting db k = some s →
          findSetting (upsertSetting db k v t) k
            = some { s with setting_value := v, updated_at := t })
      ∧ (findSetting db k = none →
          findSetting (upsertSetting db k v t) k = some (⟨k, v, none, t⟩ : Setting)) := by
  refine ⟨?_, ?_, ?_⟩
  · unfold getSetting
    rw [findSetting_upsert]
    cases findSetting db k <;> rfl
  · intro s hs
    rw [findSetting_upsert, hs]
  · intro hnone
    rw [findSetting_upsert, hnone]

/-- Witness for C7: updating the value of an existing key returns the
new value on read and keeps the stored updater. -/
theorem updateSetting_upserts_witness :
    getSetting (upsertSetting [⟨"site", "old", some 7, 0⟩] "site" "new" 5) "site"
        = some "new"
      ∧ findSetting (upsertSetting [⟨"site", "old", some 7, 0⟩] "site" "new" 5) "site"
        = some ⟨"site", "new", some 7, 5⟩ :=
  ⟨(updateSetting_upserts [⟨"site", "old", some 7, 0⟩] "site" "new" 5).1,
   (updateSetting_upserts [⟨"site", "old", some 7, 0⟩] "site" "new" 5).2.1
     ⟨"site", "old", some 7, 0⟩ (by decide)⟩

/-- Helper: a fold of upserts over entries whose keys avoid k does not
change the value read under k. -/
theorem getSetting_foldl_not_mem (entries : List (String × String))
    (db : List Setting) (t : Nat) (k : String)
    (h : k ∉ entries.map Prod.fst) :
    getSetting (entries.foldl (fun acc e => upsertSetting acc e.1 e.2 t) db) k
      = getSetting db k := by
  induction entries generalizing db with
  | nil => rfl
  | cons e rest ih =>
      have h1 : k ≠ e.1 := fun he => h (by simp [he])
      have h2 : k ∉ rest.map Prod.fst := fun hm => h (by simp [hm])
      rw [List.foldl_cons, ih (upsertSetting db e.1 e.2 t) h2]
      unfold getSetting
      rw [findSetting_upsert_ne db e.1 e.2 t k h1]

/-- Helper: after folding the upserts of a batch with pairwise distinct
keys, every entry of the batch reads back as its own value. -/
theorem getSetting_foldl_mem (entries : List (String × String))
    (db : List Setting) (t : Nat) (hnd : (entries.map Prod.fst).Nodup) :
    ∀ e ∈ entries,
      getSetting (entries.foldl (fun acc e2 => upsertSetting acc e2.1 e2.2 t) db) e.1
        = some e.2 := by
  induction entries generalizing db with
  | nil => intro e he; cases he
  | cons e0 rest ih =>
      intro e he
      have hnd3 : (e0.1 :: rest.map Prod.fst).Nodup := by
        rw [List.map_cons] at hnd
        exact hnd
      have hnd2 := List.nodup_cons.1 hnd3
      rw [List.foldl_cons]
      rcases List.mem_cons.1 he with rfl | hmem
      · rw [getSetting_foldl_not_mem rest _ t e.1 hnd2.1]
        unfold getSetting
        rw [findSetting_upsert]
        cases findSetting db e.1 <;> rfl
      · exact ih (upsertSetting db e0.1 e0.2 t) hnd2.2 e hmem

/-- C8. The batch save sends all entries in one statement, so it is
all-or-nothing: a failed statement leaves the store exactly as before,
the only states the caller can observe are the initial one and the one
with the whole batch applied, and on success every entry of the batch
(with its keys pairwise distinct, as entries of a map are) reads back
as its submitted value. -/
theorem saveAll_atomic (db : List Setting) (entries : List (String × String))
    (t : Nat) :
    handleSaveAll db entries t false = db
      ∧ (∀ ok, handleSaveAll db entries t ok = db
          ∨ handleSaveAll db entries t ok
            = entries.foldl (fun acc e => upsertSetting acc e.1 e.2 t) db)
      ∧ ((entries.map Prod.fst).Nodup →
          ∀ e ∈ entries, getSetting (handleSaveAll db entries t true) e.1 = some e.2) := by
  refine ⟨rfl, ?_, ?_⟩
  · intro ok
    cases ok with
    | false => exact Or.inl rfl
    | true => exact Or.inr rfl
  · intro hnd e he
    exact getSetting_foldl_mem entries db t hnd e he

/-- Witness for C8: a failed batch leaves the empty store empty, and a
committed batch of two entries reads back its first entry. -/
theorem saveAll_atomic_witness :
    handleSaveAll [] [("a", "1"), ("b", "2")] 0 false = []
      ∧ getSetting (handleSaveAll [] [("a", "1"), ("b", "2")] 0 true) "a" = some "1" :=
  ⟨(saveAll_atomic [] [("a", "1"), ("b", "2")] 0).1,
   (saveAll_atomic [] [("a", "1"), ("b", "2")] 0).2.2 (by decide) ("a", "1") (by decide)⟩

/-- C9. With only the two date filters set, the viewer returns exactly
the rows whose creation timestamp lies in the closed interval between
dateFrom and dateTo, both endpoints included, and it keeps the
newest-first order of the fetched rows. -/
theorem dateFilter_range_exact (logs : List LogView) (a b : Nat)
    (hsorted : logs.Pairwise (fun x y => y.created_at ≤ x.created_at)) :
    applyFilters logs ⟨"", "", "", some a, some b, ""⟩
        = logs.filter (fun l => decide (a ≤ l.created_at) && decide (l.created_at ≤ b))
      ∧ (∀ l, l ∈ applyFilters logs ⟨"", "", "", some a, some b, ""⟩
          ↔ l ∈ logs ∧ a ≤ l.created_at ∧ l.created_at ≤ b)
      ∧ (applyFilters logs ⟨"", "", "", some a, some b, ""⟩).Pairwise
          (fun x y => y.created_at ≤ x.created_at) := by
  have heq : applyFilters logs ⟨"", "", "", some a, some b, ""⟩
      = (logs.filter (fun l => decide (a ≤ l.created_at))).filter
          (fun l => decide (l.created_at ≤ b)) := by
    simp [applyFilters, condFilter]
  have heq2 : applyFilters logs ⟨"", "", "", some a, some b, ""⟩
      = logs.filter (fun l => decide (a ≤ l.created_at) && decide (l.created_at ≤ b)) := by
    rw [heq, List.filter_filter]
    exact List.filter_congr (fun x _ => by rw [Bool.and_comm])
  refine ⟨heq2, ?_, ?_⟩
  · intro l
    rw [heq2]
    simp [List.mem_filter, and_assoc]
  · rw [heq2]
    exact List.Pairwise.sublist (List.filter_sublist logs) hsorted

/-- Witness for C9: two rows with timestamps 10 and 5, both inside the
interval from 4 to 10, are both returned. -/
theorem dateFilter_range_exact_witness :
    applyFilters [sampleLog1, sampleLog2] ⟨"", "", "", some 4, some 10, ""⟩
        = List.filter (fun l => decide (4 ≤ l.created_at) && decide (l.created_at ≤ 10))
            [sampleLog1, sampleLog2]
      ∧ (sampleLog1 ∈ applyFilters [sampleLog1, sampleLog2] ⟨"", "", "", some 4, some 10, ""⟩
          ↔ sampleLog1 ∈ [sampleLog1, sampleLog2]
              ∧ 4 ≤ sampleLog1.created_at ∧ sampleLog1.created_at ≤ 10) :=
  ⟨(dateFilter_range_exact [sampleLog1, sampleLog2] 4 10 (by decide)).1,
   (dateFilter_range_exact [sampleLog1, sampleLog2] 4 10 (by decide)).2.1 sampleLog1⟩

/-- Helper: every filter stage only removes rows, so the filtered list
is a sublist of its input. -/
theorem applyFilters_sublist (logs : List LogView) (f : LogFilters) :
    (applyFilters logs f).Sublist logs := by
  have hc : ∀ (b : Bool) (p : LogView → Bool) (l : List LogView),
      (condFilter b p l).Sublist l := by
    intro b p l
    unfold condFilter
    cases b
    · exact List.Sublist.refl l
    · exact List.filter_sublist l
  have hm : ∀ (o : Option Nat) (l : List LogView) (g : Nat → LogView → Bool),
      (match o with
        | some x => l.filter (g x)
        | none => l).Sublist l := by
    intro o l g
    cases o
    · exact List.Sublist.refl l
    · exact List.filter_sublist l
  unfold applyFilters
  exact (hc _ _ _).trans ((hm _ _ _).trans ((hm _ _ _).trans
    ((hc _ _ _).trans ((hc _ _ _).trans (hc _ _ _)))))

/-- C10. The list operation keeps at most 1000 rows of the
newest-first-ordered store; every filter combination is evaluated over
that subset only, so a row outside the first 1000 is never in a
filtered result; and every exported line is the header or the line of
one of the first 1000 rows, whatever the filters are. -/
theorem fetch_limit_and_export (stored : List LogView) :
    (fetchAuditLogs stored).length ≤ 1000
      ∧ (∀ f l, l ∉ stored.take 1000 → l ∉ applyFilters (fetchAuditLogs stored) f)
      ∧ (∀ f s, s ∈ exportLogs (applyFilters (fetchAuditLogs stored) f) →
          s = csvHeader ∨ ∃ l, l ∈ stored.take 1000 ∧ s = csvRow l) := by
  refine ⟨List.length_take_le 1000 stored, ?_, ?_⟩
  · intro f l hl hmem
    exact hl ((applyFilters_sublist (fetchAuditLogs stored) f).subset hmem)
  · intro f s hs
    rcases List.mem_cons.1 hs with h1 | h2
    · exact Or.inl h1
    · obtain ⟨l, hl, rfl⟩ := List.mem_map.1 h2
      exact Or.inr ⟨l, (applyFilters_sublist (fetchAuditLogs stored) f).subset hl, rfl⟩

/-- Witness for C10: a row absent from the first 1000 stored rows is
absent from the filtered result. -/
theorem fetch_limit_and_export_witness :
    sampleLog2 ∉ applyFilters (fetchAuditLogs [sampleLog1]) emptyFilters :=
  (fetch_limit_and_export [sampleLog1]).2.1 emptyFilters sampleLog2 (by decide)

end AdminSpec
